import Mathlib

/-!
Verification development for the `lcs` light-curve simulator.

The Python sources (src/lcs/geometry.py, src/lcs/core.py, src/lcs/system.py) are
embedded shallowly: Python floats become `ℝ`, Python lists become `List`,
raised exceptions become `Except String`, and in-place mutation becomes explicit
state passing (functions return the updated object).  The shapely geometry
backend is an external collaborator; following the specification's "limit of
exact representation" semantics, its regions are modelled as subsets of `ℝ × ℝ`
and `.area` as the Lebesgue measure of the region.
-/

open MeasureTheory Set

namespace LCS

/-- Modelled from the spec: the class `Point` lives in src/lcs/v3d.py, which is not
among the provided sources.  Per §3 of the specification it is a 2-D coordinate
`(x, y)`, an immutable value type supporting the vector addition used by `move`. -/
structure Point where
  x : ℝ
  y : ℝ

instance : Add Point := ⟨fun p q => ⟨p.x + q.x, p.y + q.y⟩⟩

/-- Image of shapely's `Point(c).buffer(r)` in the exact-representation limit:
the closed disc of radius `r` about `c`. -/
def disc (c : ℝ × ℝ) (r : ℝ) : Set (ℝ × ℝ) :=
  {p | (p.1 - c.1) ^ 2 + (p.2 - c.2) ^ 2 ≤ r ^ 2}

/-- Model of shapely `affinity.scale(geom, sx, sy, origin='center')` where the
geometry's bounding-box centre is the point `o` (which is the case for every call
in src/lcs/geometry.py: the scaled geometry is always a disc centred at `o`). -/
def scaleAbout (o : ℝ × ℝ) (sx sy : ℝ) (S : Set (ℝ × ℝ)) : Set (ℝ × ℝ) :=
  (fun p => (o.1 + sx * (p.1 - o.1), o.2 + sy * (p.2 - o.2))) '' S

/-- Model of shapely `affinity.rotate(geom, theta, origin='center')` about the
centre `o`; `theta` is in degrees, positive is counter-clockwise. -/
def rotateAbout (o : ℝ × ℝ) (theta : ℝ) (S : Set (ℝ × ℝ)) : Set (ℝ × ℝ) :=
  (fun p => (o.1 + Real.cos (theta * Real.pi / 180) * (p.1 - o.1)
               - Real.sin (theta * Real.pi / 180) * (p.2 - o.2),
             o.2 + Real.sin (theta * Real.pi / 180) * (p.1 - o.1)
               + Real.cos (theta * Real.pi / 180) * (p.2 - o.2))) '' S

/-- Model of shapely's `.area`: the Lebesgue area of the region. -/
noncomputable def area (S : Set (ℝ × ℝ)) : ℝ := (volume S).toReal

/-- src/lcs/geometry.py, class `Ellipse`. -/
structure Ellipse where
  pos : Point
  a : ℝ
  b : ℝ
  theta : ℝ
  brightness : ℝ

/-- src/lcs/geometry.py, `Ellipse.geometry`:
`rotate(scale(Point(pos.x - 0.5, pos.y - 0.5).buffer(1), a, b), theta)`.
Both transforms use `origin='center'`, which here is the buffered point
`(pos.x - 0.5, pos.y - 0.5)` itself. -/
def Ellipse.geometry (e : Ellipse) : Set (ℝ × ℝ) :=
  rotateAbout (e.pos.x - 0.5, e.pos.y - 0.5) e.theta
    (scaleAbout (e.pos.x - 0.5, e.pos.y - 0.5) e.a e.b
      (disc (e.pos.x - 0.5, e.pos.y - 0.5) 1))

/-- src/lcs/geometry.py, class `EllipticRing`; `a_range`/`b_range` are the
two-element rows produced by `np.column_stack` in `EllipticalBody.bodies`. -/
structure EllipticRing where
  pos : Point
  a_range : ℝ × ℝ
  b_range : ℝ × ℝ
  theta : ℝ
  brightness : ℝ

/-- src/lcs/geometry.py, `EllipticRing.geometry`: the outer ellipse (axes
`max(a_range), max(b_range)`) minus the inner ellipse (axes `min(a_range),
min(b_range)`), both centred at `(pos.x, pos.y)` and rotated by `theta`. -/
noncomputable def EllipticRing.geometry (r : EllipticRing) : Set (ℝ × ℝ) :=
  rotateAbout (r.pos.x, r.pos.y) r.theta
      (scaleAbout (r.pos.x, r.pos.y) (max r.a_range.1 r.a_range.2)
        (max r.b_range.1 r.b_range.2) (disc (r.pos.x, r.pos.y) 1)) \
    rotateAbout (r.pos.x, r.pos.y) r.theta
      (scaleAbout (r.pos.x, r.pos.y) (min r.a_range.1 r.a_range.2)
        (min r.b_range.1 r.b_range.2) (disc (r.pos.x, r.pos.y) 1))

/-- The Python list returned by `EllipticalBody.bodies` holds `Ellipse` or
`EllipticRing` objects; this is their sum type. -/
inductive Shape where
  | ell (e : Ellipse)
  | ring (r : EllipticRing)

/-- The `.geometry` property of a list element of `bodies`. -/
noncomputable def Shape.geometry : Shape → Set (ℝ × ℝ)
  | .ell e => e.geometry
  | .ring r => r.geometry

/-- The `.brightness` attribute of a list element of `bodies`. -/
def Shape.brightness : Shape → ℝ
  | .ell e => e.brightness
  | .ring r => r.brightness

/-- Spec-side measuring function: the outer semi-major axis of a derived region,
used to compare which region of a `bodies` list is the outermost one. -/
noncomputable def Shape.outerA : Shape → ℝ
  | .ell e => e.a
  | .ring r => max r.a_range.1 r.a_range.2

/-- Python dynamic typing of `EllipticalBody.brightness`: `num` covers the
`isinstance(brightness, (float, int))` branch, `arr` the
`isinstance(brightness, (list, np.ndarray))` branch, and `other` any value that
matches neither (which `bodies` rejects at runtime with `ValueError`). -/
inductive Brightness where
  | num (k : ℝ)
  | arr (l : List ℝ)
  | other

/-- src/lcs/core.py, class `EllipticalBody`. -/
structure EllipticalBody where
  pos : Point
  a : ℝ
  b : ℝ
  theta : ℝ
  brightness : Brightness

/-- numpy `np.linspace(s, e, n)` with `endpoint=True`: `n` evenly spaced samples
`s + (e - s) * i / (n - 1)`.  For `n = 1` numpy returns `[s]`, which the formula
also yields here since division by zero is zero in Lean. -/
noncomputable def linspace (s e : ℝ) (n : ℕ) : List ℝ :=
  (List.range n).map (fun i : ℕ => s + (e - s) * (i : ℝ) / ((n : ℝ) - 1))

/-- src/lcs/core.py, `EllipticalBody.bodies`: a single `Ellipse` for scalar
brightness; for a profile, rings built from consecutive rows of
`np.column_stack((a_s[:-1], a_s[1:]))` (here `a_s.zip a_s.tail`) zipped with the
profile — Python's `zip` truncates to the shortest input; any other brightness
raises `ValueError("Brightness problem")`. -/
noncomputable def EllipticalBody.bodies (body : EllipticalBody) : Except String (List Shape) :=
  match body.brightness with
  | .num k => .ok [.ell ⟨body.pos, body.a, body.b, body.theta, k⟩]
  | .arr l =>
      let a_s := linspace body.a 0 l.length
      let b_s := linspace body.b 0 l.length
      let a_s2use := a_s.zip a_s.tail
      let b_s2use := b_s.zip b_s.tail
      .ok (((a_s2use.zip b_s2use).zip l).map
        (fun pr => .ring ⟨body.pos, pr.1.1, pr.1.2, body.theta, pr.2⟩))
  | .other => .error "Brightness problem"

/-- src/lcs/core.py, `EllipticalBody.move`. -/
def EllipticalBody.move (body : EllipticalBody) (point : Point) (relative : Bool) :
    EllipticalBody :=
  if relative then { body with pos := body.pos + point } else { body with pos := point }

/-- src/lcs/core.py, `EllipticalBody.reshape`. -/
def EllipticalBody.reshape (body : EllipticalBody) (a b : ℝ) : EllipticalBody :=
  { body with a := a, b := b }

/-- src/lcs/core.py, `EllipticalBody.rotate`. -/
def EllipticalBody.rotate (body : EllipticalBody) (theta : ℝ) (relative : Bool) :
    EllipticalBody :=
  if relative then { body with theta := body.theta + theta }
  else { body with theta := theta }

/-- The local variable `brtns` of the three flux methods in src/lcs/system.py:
`[brightness]` for a scalar, the profile itself for a sequence.  For an invalid
brightness the Python code binds the raw object, but it is consumed only after
`bodies` has already raised, so that branch is unreachable; `[]` stands in. -/
def brtns : Brightness → List ℝ
  | .num k => [k]
  | .arr l => l
  | .other => []

/-- src/lcs/system.py, class `Binary`. -/
structure Binary where
  bodyA : EllipticalBody
  bodyB : EllipticalBody

/-- src/lcs/system.py, `Binary.get_mag_A`: the sum of `area * brightness` over
`zip(bodyA.bodies, brtns)`. -/
noncomputable def Binary.get_mag_A (s : Binary) : Except String ℝ :=
  (s.bodyA.bodies).map (fun bs =>
    ((bs.zip (brtns s.bodyA.brightness)).map
      (fun pr => area pr.1.geometry * pr.2)).sum)

/-- src/lcs/system.py, `Binary.get_mag_B`. -/
noncomputable def Binary.get_mag_B (s : Binary) : Except String ℝ :=
  (s.bodyB.bodies).map (fun bs =>
    ((bs.zip (brtns s.bodyB.brightness)).map
      (fun pr => area pr.1.geometry * pr.2)).sum)

/-- src/lcs/system.py, `Binary.get_total_mag`: `get_mag_B()` plus the sum over
`zip(bodyA.bodies, brtns)` of `area(body.geometry.difference(bodyB.bodies[-1].geometry))
* brightness`; Python's `bodies[-1]` raises `IndexError` on an empty list. -/
noncomputable def Binary.get_total_mag (s : Binary) : Except String ℝ :=
  match s.get_mag_B with
  | .error e => .error e
  | .ok b_mag =>
      match s.bodyA.bodies with
      | .error e => .error e
      | .ok bsA =>
          match s.bodyB.bodies with
          | .error e => .error e
          | .ok bsB =>
              match bsB.getLast? with
              | none => .error "IndexError: list index out of range"
              | some occ =>
                  .ok (b_mag +
                    ((bsA.zip (brtns s.bodyA.brightness)).map
                      (fun pr => area (pr.1.geometry \ occ.geometry) * pr.2)).sum)

/-- Python's builtin `max` applied to a sequence: raises `ValueError` on an empty
one (this is how `Binary.simulate` fails for `step = 0`). -/
noncomputable def pyMax : List ℝ → Except String ℝ
  | [] => .error "max() arg is an empty sequence"
  | x :: xs => .ok (xs.foldl max x)

/-- Loop body of src/lcs/system.py `Binary.simulate`: for each interpolated
sample, `bodyB` is moved and rotated absolutely, then `(index, get_total_mag())`
is recorded.  Progress printing and the `save_to` plotting branch are I/O
collaborators outside the model. -/
noncomputable def Binary.simLoop (s : Binary) (it : ℕ) :
    List (ℝ × ℝ × ℝ) → Except String (List (ℕ × ℝ) × Binary)
  | [] => .ok ([], s)
  | (x, y, ang) :: rest =>
      let s' : Binary :=
        { s with bodyB := (s.bodyB.move ⟨x, y⟩ false).rotate ang false }
      match s'.get_total_mag with
      | .error e => .error e
      | .ok flux =>
          match s'.simLoop (it + 1) rest with
          | .error e => .error e
          | .ok pr => .ok ((it, flux) :: pr.1, pr.2)

/-- src/lcs/system.py, `Binary.simulate`: `np.linspace` rejects a negative sample
count with `ValueError`; afterwards the `upper_x_lims` line applies Python `max`
to `abs(xs)` and to `abs(xs) + 10`, each of which raises `ValueError` when `xs`
is empty, i.e. when `step = 0`; then the loop runs over `zip(xs, ys, angs)`. -/
noncomputable def Binary.simulate (s : Binary) (target : Point) (angle : ℝ) (step : ℤ) :
    Except String (List (ℕ × ℝ) × Binary) :=
  if step < 0 then .error "Number of samples must be non-negative"
  else
    let xs := linspace s.bodyB.pos.x target.x step.toNat
    let ys := linspace s.bodyB.pos.y target.y step.toNat
    let angs := linspace s.bodyB.theta angle step.toNat
    match pyMax (xs.map (fun v => |v|)), pyMax (xs.map (fun v => |v| + 10)) with
    | .error e, _ => .error e
    | .ok _, .error e => .error e
    | .ok _, .ok _ => s.simLoop 0 (xs.zip (ys.zip angs))

/-- Value of a flux query that succeeded, `0` for an exception; a convenience
projection for stating concrete evaluations. -/
def exVal : Except String ℝ → ℝ
  | .ok v => v
  | .error _ => 0

/-! ### Geometry lemmas: every region built by the code is an affine image of the
unit disc, whose area follows from the Lebesgue volume of the unit disc. -/

theorem mem_disc {c : ℝ × ℝ} {r : ℝ} {p : ℝ × ℝ} :
    p ∈ disc c r ↔ (p.1 - c.1) ^ 2 + (p.2 - c.2) ^ 2 ≤ r ^ 2 := Iff.rfl

/-- The affine map underlying `rotate ∘ scale` about `c`: scaling by `(a, b)` then
rotating by `θr` radians, both about `c`. -/
noncomputable def affMap (c : ℝ × ℝ) (a b θr : ℝ) (q : ℝ × ℝ) : ℝ × ℝ :=
  (c.1 + (a * Real.cos θr * q.1 - b * Real.sin θr * q.2),
   c.2 + (a * Real.sin θr * q.1 + b * Real.cos θr * q.2))

theorem disc_eq_image (c : ℝ × ℝ) (r : ℝ) :
    disc c r = (fun q : ℝ × ℝ => c + q) '' disc (0, 0) r := by
  ext p
  constructor
  · intro hp
    exact ⟨(p.1 - c.1, p.2 - c.2), by simpa [disc] using hp,
      by apply Prod.ext <;> simp⟩
  · rintro ⟨q, hq, rfl⟩
    simpa [disc] using hq

theorem rotate_scale_disc_eq_image (c : ℝ × ℝ) (a b θ : ℝ) :
    rotateAbout c θ (scaleAbout c a b (disc c 1)) =
      affMap c a b (θ * Real.pi / 180) '' disc (0, 0) 1 := by
  rw [disc_eq_image c 1, scaleAbout, rotateAbout, Set.image_image, Set.image_image]
  apply Set.image_congr
  intro q _
  apply Prod.ext
  · simp only [affMap, Prod.fst_add, Prod.snd_add]
    ring
  · simp only [affMap, Prod.fst_add, Prod.snd_add]
    ring

/-- The scaling-then-rotation as a linear map on `ℝ × ℝ`. -/
noncomputable def linMap (a b θr : ℝ) : ℝ × ℝ →ₗ[ℝ] ℝ × ℝ :=
  Matrix.toLin (Basis.finTwoProd ℝ) (Basis.finTwoProd ℝ)
    !![a * Real.cos θr, -(b * Real.sin θr); a * Real.sin θr, b * Real.cos θr]

theorem affMap_eq_linMap (c : ℝ × ℝ) (a b θr : ℝ) :
    affMap c a b θr = fun q => c + linMap a b θr q := by
  funext q
  rw [linMap, Matrix.toLin_finTwoProd_apply]
  apply Prod.ext
  · simp only [affMap, Prod.fst_add, Prod.snd_add]
    ring
  · simp only [affMap, Prod.fst_add, Prod.snd_add]

theorem det_linMap (a b θr : ℝ) : LinearMap.det (linMap a b θr) = a * b := by
  rw [linMap, LinearMap.det_toLin, Matrix.det_fin_two_of]
  linear_combination a * b * Real.sin_sq_add_cos_sq θr

theorem volume_image_add (c : ℝ × ℝ) (S : Set (ℝ × ℝ)) :
    volume ((fun p => c + p) '' S) = volume S := by
  have h : (fun p : ℝ × ℝ => c + p) '' S = Set.preimage (fun p => -c + p) S := by
    ext p
    constructor
    · rintro ⟨q, hq, rfl⟩
      simpa using hq
    · intro hp
      exact ⟨-c + p, hp, by simp⟩
  rw [h, measure_preimage_add]

theorem volume_image_affMap (c : ℝ × ℝ) (a b θr : ℝ) (S : Set (ℝ × ℝ)) :
    volume (affMap c a b θr '' S) = ENNReal.ofReal |a * b| * volume S := by
  rw [affMap_eq_linMap]
  have h : (fun q => c + linMap a b θr q) '' S = (fun p => c + p) '' (linMap a b θr '' S) := by
    rw [Set.image_image]
  rw [h, volume_image_add, Measure.addHaar_image_linearMap, det_linMap]

theorem unitDisc_eq_preimage :
    disc ((0 : ℝ), (0 : ℝ)) 1 =
      Set.preimage Complex.measurableEquivRealProd.symm (Metric.closedBall (0 : ℂ) 1) := by
  ext p
  simp only [Set.mem_preimage, Metric.mem_closedBall, Complex.measurableEquivRealProd_symm_apply,
    Complex.dist_eq, sub_zero, mem_disc]
  rw [← pow_le_one_iff_of_nonneg (AbsoluteValue.nonneg _ _) two_ne_zero, Complex.sq_abs,
    Complex.normSq_mk]
  constructor
  · intro hp
    nlinarith
  · intro hp
    nlinarith

theorem volume_unitDisc : volume (disc ((0 : ℝ), (0 : ℝ)) 1) = ENNReal.ofReal Real.pi := by
  rw [unitDisc_eq_preimage,
    (Complex.volume_preserving_equiv_real_prod.symm
        Complex.measurableEquivRealProd).measure_preimage
      measurableSet_closedBall.nullMeasurableSet,
    Complex.volume_closedBall]
  simp
  rw [← NNReal.coe_real_pi, ENNReal.ofReal_coe_nnreal]

theorem volume_rotate_scale_disc (c : ℝ × ℝ) (a b θ : ℝ) :
    volume (rotateAbout c θ (scaleAbout c a b (disc c 1))) =
      ENNReal.ofReal (|a * b| * Real.pi) := by
  rw [rotate_scale_disc_eq_image, volume_image_affMap, volume_unitDisc,
    ← ENNReal.ofReal_mul (abs_nonneg _)]

theorem area_rotate_scale_disc (c : ℝ × ℝ) (a b θ : ℝ) :
    area (rotateAbout c θ (scaleAbout c a b (disc c 1))) = Real.pi * |a| * |b| := by
  rw [area, volume_rotate_scale_disc, ENNReal.toReal_ofReal (by positivity), abs_mul]
  ring

/-- The area of `Ellipse.geometry` is `π·|a|·|b|`, for every centre, rotation and
brightness: the geometry backend never rejects any axis value, a negative axis
simply reflects the ellipse. -/
theorem Ellipse.area_geometry (e : Ellipse) : area e.geometry = Real.pi * |e.a| * |e.b| := by
  rw [Ellipse.geometry]
  exact area_rotate_scale_disc _ _ _ _

theorem rotate_scale_disc_zero (c : ℝ × ℝ) (θ : ℝ) :
    rotateAbout c θ (scaleAbout c 0 0 (disc c 1)) = {c} := by
  rw [rotate_scale_disc_eq_image]
  have h1 : affMap c 0 0 (θ * Real.pi / 180) = fun _ => c := by
    funext q
    apply Prod.ext
    · simp [affMap]
    · simp [affMap]
  rw [h1]
  exact Set.Nonempty.image_const ⟨(0, 0), by simp [disc]⟩ c

theorem rotate_scale_disc_one (c : ℝ × ℝ) :
    rotateAbout c 0 (scaleAbout c 1 1 (disc c 1)) = disc c 1 := by
  rw [rotate_scale_disc_eq_image]
  have h1 : affMap c 1 1 (0 * Real.pi / 180) = fun q : ℝ × ℝ => c + q := by
    funext q
    apply Prod.ext <;> simp [affMap, Prod.fst_add, Prod.snd_add]
  rw [h1, ← disc_eq_image]

theorem measurableSet_disc (c : ℝ × ℝ) (r : ℝ) : MeasurableSet (disc c r) := by
  have h : disc c r =
      Set.preimage (fun p : ℝ × ℝ => (p.1 - c.1) ^ 2 + (p.2 - c.2) ^ 2) (Set.Iic (r ^ 2)) := rfl
  rw [h]
  exact (((continuous_fst.sub continuous_const).pow 2).add
    ((continuous_snd.sub continuous_const).pow 2)).measurable measurableSet_Iic

theorem volume_singleton_pair (p : ℝ × ℝ) : volume ({p} : Set (ℝ × ℝ)) = 0 := by
  have h : ({p} : Set (ℝ × ℝ)) = ({p.1} : Set ℝ) ×ˢ ({p.2} : Set ℝ) := by
    ext q
    simp [Prod.ext_iff]
  rw [h, Measure.volume_eq_prod, Measure.prod_prod]
  simp

theorem volume_disc_one (c : ℝ × ℝ) : volume (disc c 1) = ENNReal.ofReal Real.pi := by
  rw [disc_eq_image, volume_image_add, volume_unitDisc]

/-! ### Structural lemmas about `bodies` and the flux queries -/

theorem linspace_length (s e : ℝ) (n : ℕ) : (linspace s e n).length = n := by
  rw [linspace, List.length_map, List.length_range]

theorem linspace_zero (s e : ℝ) : linspace s e 0 = [] := rfl

theorem linspace_one (s e : ℝ) : linspace s e 1 = [s] := by
  rw [linspace, show List.range 1 = [0] from rfl]
  norm_num

theorem linspace_getElem (s e : ℝ) (n i : ℕ) (h : i < (linspace s e n).length) :
    (linspace s e n)[i] = s + (e - s) * i / ((n : ℝ) - 1) := by
  simp only [linspace, List.getElem_map, List.getElem_range]

theorem bodies_num (p : Point) (a b θ k : ℝ) :
    (EllipticalBody.mk p a b θ (.num k)).bodies = .ok [.ell ⟨p, a, b, θ, k⟩] := rfl

theorem bodies_arr (p : Point) (a b θ : ℝ) (l : List ℝ) :
    (EllipticalBody.mk p a b θ (.arr l)).bodies =
      .ok (((((linspace a 0 l.length).zip (linspace a 0 l.length).tail).zip
            ((linspace b 0 l.length).zip (linspace b 0 l.length).tail)).zip l).map
        (fun pr => .ring ⟨p, pr.1.1, pr.1.2, θ, pr.2⟩)) := rfl

theorem zip_self_map_mul {α : Type} (g : Shape → ℝ) (mk : α → ℝ → Shape)
    (hmk : ∀ x w, Shape.brightness (mk x w) = w) :
    ∀ (xs : List α) (l : List ℝ),
      (((xs.zip l).map (fun pr => mk pr.1 pr.2)).zip l).map (fun pr => g pr.1 * pr.2) =
        ((xs.zip l).map (fun pr => mk pr.1 pr.2)).map
          (fun sh => g sh * Shape.brightness sh)
  | [], _ => by simp
  | _ :: _, [] => by simp
  | x :: xs, w :: l => by
      simp only [List.zip_cons_cons, List.map_cons, hmk]
      rw [zip_self_map_mul g mk hmk xs l]

/-- Zipping a `bodies` list with the `brtns` list pairs every region with its own
stored brightness: the code's `zip(bodies, brtns)` sums are sums over the regions
weighted by each region's own brightness. -/
theorem sum_zip_brtns (body : EllipticalBody) (bs : List Shape) (g : Shape → ℝ)
    (h : body.bodies = .ok bs) :
    ((bs.zip (brtns body.brightness)).map (fun pr => g pr.1 * pr.2)).sum =
      (bs.map (fun sh => g sh * Shape.brightness sh)).sum := by
  obtain ⟨p, a, b, θ, br⟩ := body
  cases br with
  | num k =>
      rw [bodies_num] at h
      injection h with h
      subst h
      simp [brtns, Shape.brightness]
  | arr l =>
      rw [bodies_arr] at h
      injection h with h
      subst h
      exact congrArg List.sum
        (zip_self_map_mul g (fun (ab : (ℝ × ℝ) × (ℝ × ℝ)) (w : ℝ) =>
            Shape.ring ⟨p, ab.1, ab.2, θ, w⟩) (fun _ _ => rfl) _ l)
  | other =>
      exact absurd h (by simp [EllipticalBody.bodies])

theorem get_mag_A_eq (s : Binary) (bs : List Shape) (h : s.bodyA.bodies = .ok bs) :
    s.get_mag_A = .ok ((bs.map (fun sh => area sh.geometry * Shape.brightness sh)).sum) := by
  rw [Binary.get_mag_A, h, Except.map]
  exact congrArg Except.ok (sum_zip_brtns _ bs (fun sh => area sh.geometry) h)

theorem get_mag_B_eq (s : Binary) (bs : List Shape) (h : s.bodyB.bodies = .ok bs) :
    s.get_mag_B = .ok ((bs.map (fun sh => area sh.geometry * Shape.brightness sh)).sum) := by
  rw [Binary.get_mag_B, h, Except.map]
  exact congrArg Except.ok (sum_zip_brtns _ bs (fun sh => area sh.geometry) h)

/-- Evaluation of `get_total_mag` when all intermediate queries succeed: the
occulting geometry is the last element of the background body's `bodies` list. -/
theorem get_total_mag_eq (s : Binary) (bsA bsB : List Shape) (occ : Shape) (mB : ℝ)
    (hA : s.bodyA.bodies = .ok bsA) (hB : s.bodyB.bodies = .ok bsB)
    (hocc : bsB.getLast? = some occ) (hm : s.get_mag_B = .ok mB) :
    s.get_total_mag = .ok (mB +
      (bsA.map (fun sh => area (sh.geometry \ occ.geometry) * Shape.brightness sh)).sum) := by
  simp only [Binary.get_total_mag, hm, hA, hB, hocc]
  exact congrArg (fun t => Except.ok (mB + t))
    (sum_zip_brtns _ bsA (fun sh => area (sh.geometry \ occ.geometry)) hA)

/-! ### Lemmas about `simulate` -/

theorem simstep_self (s : Binary) :
    ({ s with bodyB :=
        (s.bodyB.move ⟨s.bodyB.pos.x, s.bodyB.pos.y⟩ false).rotate s.bodyB.theta false } :
      Binary) = s := rfl

/-- Running `simulate` with `step = 1` records the flux of the unchanged state and
leaves the system unchanged: `np.linspace(start, stop, 1)` is `[start]`, so the
single sample moves the mover to its own current position and orientation. -/
theorem simulate_one (s : Binary) (target : Point) (angle f : ℝ)
    (h : s.get_total_mag = .ok f) :
    s.simulate target angle 1 = .ok ([(0, f)], s) := by
  rw [Binary.simulate, if_neg (by decide)]
  simp only [Int.toNat_one, linspace_one, List.map_cons, List.map_nil,
    List.zip_cons_cons, List.zip_nil_right, pyMax, Binary.simLoop, Nat.cast_zero,
    Nat.cast_one, mul_zero, zero_div, zero_mul, add_zero, simstep_self, h]

/-- A run with `step < 1` raises before the loop: a negative sample count is
rejected by `np.linspace`, and `step = 0` makes `max(abs(xs))` raise on an empty
sequence; either way no state is produced. -/
theorem simulate_lt_one (s : Binary) (target : Point) (angle : ℝ) (k : ℤ)
    (hk : k < 1) :
    s.simulate target angle k =
      .error (if k < 0 then "Number of samples must be non-negative"
              else "max() arg is an empty sequence") := by
  rcases lt_or_le k 0 with h | h
  · rw [Binary.simulate, if_pos h, if_pos h]
  · have hk0 : k = 0 := by omega
    subst hk0
    rw [Binary.simulate, if_neg (by decide), if_neg (by decide)]
    simp only [Int.toNat_zero, linspace_zero, List.map_nil, pyMax]

theorem simLoop_frame :
    ∀ (lst : List (ℝ × ℝ × ℝ)) (s : Binary) (it : ℕ) (res : List (ℕ × ℝ))
      (fin : Binary), s.simLoop it lst = .ok (res, fin) →
      fin.bodyA = s.bodyA ∧ fin.bodyB.a = s.bodyB.a ∧ fin.bodyB.b = s.bodyB.b ∧
        fin.bodyB.brightness = s.bodyB.brightness
  | [], s, it, res, fin, h => by
      rw [Binary.simLoop] at h
      injection h with h
      cases h
      exact ⟨rfl, rfl, rfl, rfl⟩
  | (x, y, ang) :: tl, s, it, res, fin, h => by
      rw [Binary.simLoop] at h
      cases hm : Binary.get_total_mag
          { s with bodyB := (s.bodyB.move ⟨x, y⟩ false).rotate ang false } with
      | error e => rw [hm] at h; exact absurd h (by simp)
      | ok flux =>
          rw [hm] at h
          cases hl : Binary.simLoop
              { s with bodyB := (s.bodyB.move ⟨x, y⟩ false).rotate ang false }
              (it + 1) tl with
          | error e => rw [hl] at h; exact absurd h (by simp)
          | ok pr =>
              rw [hl] at h
              injection h with h
              cases h
              exact simLoop_frame tl
                { s with bodyB := (s.bodyB.move ⟨x, y⟩ false).rotate ang false }
                (it + 1) pr.1 pr.2 hl

/-- Completed runs of `simulate` mutate only `bodyB`'s position and orientation:
`bodyA` is untouched and `bodyB` keeps its axes and brightness. -/
theorem simulate_frame (s : Binary) (target : Point) (angle : ℝ) (k : ℤ)
    (res : List (ℕ × ℝ)) (fin : Binary)
    (h : s.simulate target angle k = .ok (res, fin)) :
    fin.bodyA = s.bodyA ∧ fin.bodyB.a = s.bodyB.a ∧ fin.bodyB.b = s.bodyB.b ∧
      fin.bodyB.brightness = s.bodyB.brightness := by
  simp only [Binary.simulate] at h
  by_cases hk : k < 0
  · rw [if_pos hk] at h
    exact absurd h (by simp)
  · rw [if_neg hk] at h
    cases h1 : pyMax ((linspace s.bodyB.pos.x target.x k.toNat).map (fun v => |v|)) with
    | error e => rw [h1] at h; exact absurd h (by simp)
    | ok v1 =>
        rw [h1] at h
        cases h2 : pyMax
            ((linspace s.bodyB.pos.x target.x k.toNat).map (fun v => |v| + 10)) with
        | error e => rw [h2] at h; exact absurd h (by simp)
        | ok v2 =>
            rw [h2] at h
            exact simLoop_frame _ s 0 res fin h

/-! ### Concrete bodies and systems used by witnesses and counterexamples -/

/-- Uniform unit-disc body at the origin. -/
def bodyU : EllipticalBody := ⟨⟨0, 0⟩, 1, 1, 0, .num 1⟩

/-- Uniform elliptical body away from the origin. -/
noncomputable def bodyV : EllipticalBody := ⟨⟨10, 0⟩, 2, 1, 0, .num (1/2)⟩

/-- Sample system with two scalar-brightness bodies. -/
noncomputable def sysW : Binary := ⟨bodyU, bodyV⟩

/-! ### Claim theorems -/

/-- C9 (confirmed): for all non-negative semi-axes `a, b`, the area of the
constructed ellipse region is exactly `π·a·b` — hence within any stated
tolerance — and the area does not depend on the rotation angle or on the
centre: two regions with the same axes but different centre and angle have
equal areas. -/
theorem C9_ellipse_area (p q : Point) (a b θ θ' br br' : ℝ)
    (ha : 0 ≤ a) (hb : 0 ≤ b) :
    area (Ellipse.mk p a b θ br).geometry = Real.pi * a * b ∧
    area (Ellipse.mk q a b θ' br').geometry =
      area (Ellipse.mk p a b θ br).geometry := by
  have h1 : area (Ellipse.mk p a b θ br).geometry = Real.pi * |a| * |b| :=
    Ellipse.area_geometry _
  have h2 : area (Ellipse.mk q a b θ' br').geometry = Real.pi * |a| * |b| :=
    Ellipse.area_geometry _
  rw [abs_of_nonneg ha, abs_of_nonneg hb] at h1 h2
  exact ⟨h1, h2.trans h1.symm⟩

/-- Witness for C9 at `a = 1`, `b = 2`, two different centres and angles. -/
theorem C9_ellipse_area_witness :
    area (Ellipse.mk ⟨0, 0⟩ 1 2 0 1).geometry = Real.pi * 1 * 2 ∧
    area (Ellipse.mk ⟨3, 4⟩ 1 2 45 0).geometry =
      area (Ellipse.mk ⟨0, 0⟩ 1 2 0 1).geometry :=
  C9_ellipse_area ⟨0, 0⟩ ⟨3, 4⟩ 1 2 0 45 1 0 (by norm_num) (by norm_num)

/-- C7 counterexample: constructing the region of an ellipse with `a = -1` does
not fail — the code performs no validation anywhere, and the resulting region is
a well-defined (reflected) ellipse of positive area `π`, contradicting the
claimed invalid-argument error. -/
theorem C7_negative_axis_no_error :
    area (Ellipse.mk ⟨0, 0⟩ (-1) 1 0 1).geometry = Real.pi := by
  have h : area (Ellipse.mk ⟨0, 0⟩ (-1) 1 0 1).geometry =
      Real.pi * |(-1 : ℝ)| * |(1 : ℝ)| := Ellipse.area_geometry _
  rw [h]
  norm_num

/-- C7 amended (proved): region construction never validates the axes — a
negative semi-axis is accepted and yields a reflected ellipse with area
`π·|a|·|b|`, and a degenerate zero-axis ellipse is likewise valid with area 0. -/
theorem C7_no_validation (p : Point) (a b θ br : ℝ) :
    area (Ellipse.mk p a b θ br).geometry = Real.pi * |a| * |b| ∧
    area (Ellipse.mk p 0 b θ br).geometry = 0 := by
  refine ⟨Ellipse.area_geometry _, ?_⟩
  have h : area (Ellipse.mk p 0 b θ br).geometry = Real.pi * |(0 : ℝ)| * |b| :=
    Ellipse.area_geometry _
  rw [h]
  simp

/-- C5 amended (proved): a run with `steps = 1` returns exactly one entry, whose
flux is that of the mover's pre-run state, and leaves the mover at its pre-run
position and orientation — the final position equals the given target only when
the target coincides with the start. -/
theorem C5_single_step (s : Binary) (target : Point) (angle f : ℝ)
    (h : s.get_total_mag = .ok f) :
    s.simulate target angle 1 = .ok ([(0, f)], s) :=
  simulate_one s target angle f h

/-- Witness for C5 on a concrete two-body system. -/
theorem C5_single_step_witness :
    sysW.simulate ⟨5, 5⟩ 0 1 = .ok ([(0, exVal sysW.get_total_mag)], sysW) :=
  C5_single_step sysW ⟨5, 5⟩ 0 (exVal sysW.get_total_mag) rfl

/-- C5 counterexample: the mover starts at `(10, 0)` and is asked to move to
`(1, 0)` with `steps = 1`; the final position is still `(10, 0)`, not the given
target, refuting the claim that the mover ends at the target. -/
theorem C5_target_not_reached :
    (sysW.simulate ⟨1, 0⟩ 0 1).map (fun pr => pr.2.bodyB.pos) = .ok ⟨10, 0⟩ ∧
    (Point.mk 10 0) ≠ ⟨1, 0⟩ := by
  constructor
  · rw [simulate_one sysW ⟨1, 0⟩ 0 (exVal sysW.get_total_mag) rfl]
    rfl
  · intro hcon
    injection hcon with h1 h2
    norm_num at h1

/-- C6 (confirmed): every call with `steps < 1` is rejected with an error before
the simulation loop runs: a negative count is rejected by `np.linspace`, and
`steps = 0` makes the `upper_x_lims` computation apply `max` to an empty
sequence; in the functional model the error result carries no mutated state and
no partial result. -/
theorem C6_steps_lt_one_rejected (s : Binary) (target : Point) (angle : ℝ)
    (k : ℤ) (hk : k < 1) :
    s.simulate target angle k =
      .error (if k < 0 then "Number of samples must be non-negative"
              else "max() arg is an empty sequence") :=
  simulate_lt_one s target angle k hk

/-- Witness for C6 at `steps = 0`. -/
theorem C6_steps_lt_one_rejected_witness :
    sysW.simulate ⟨1, 1⟩ 0 0 =
      .error (if (0 : ℤ) < 0 then "Number of samples must be non-negative"
              else "max() arg is an empty sequence") :=
  C6_steps_lt_one_rejected sysW ⟨1, 1⟩ 0 0 (by decide)

/-- C8 (confirmed): a body whose brightness is neither a scalar nor a sequence
is constructed and mutated without error (the mutators are total and leave the
brightness untouched), but deriving `bodies` fails with the `ValueError` at the
point of derivation — before and after any mutation. -/
theorem C8_invalid_brightness (p q : Point) (a b θ θ' a' b' : ℝ) (r : Bool) :
    (EllipticalBody.mk p a b θ .other).bodies = .error "Brightness problem" ∧
    ((EllipticalBody.mk p a b θ .other).move q r).bodies =
      .error "Brightness problem" ∧
    ((EllipticalBody.mk p a b θ .other).rotate θ' r).bodies =
      .error "Brightness problem" ∧
    ((EllipticalBody.mk p a b θ .other).reshape a' b').bodies =
      .error "Brightness problem" := by
  refine ⟨rfl, ?_, ?_, rfl⟩
  · cases r <;> rfl
  · cases r <;> rfl

/-- C10 (confirmed): a completed run mutates only the second body's position and
orientation — the first body's entire state and the second body's axes and
brightness are unchanged; the flux queries are pure functions of the state in
this model, returning no modified state. -/
theorem C10_simulate_frame (s : Binary) (target : Point) (angle : ℝ) (k : ℤ)
    (res : List (ℕ × ℝ)) (fin : Binary)
    (h : s.simulate target angle k = .ok (res, fin)) :
    fin.bodyA = s.bodyA ∧ fin.bodyB.a = s.bodyB.a ∧ fin.bodyB.b = s.bodyB.b ∧
      fin.bodyB.brightness = s.bodyB.brightness :=
  simulate_frame s target angle k res fin h

/-- Witness for C10 on a completed one-step run. -/
theorem C10_simulate_frame_witness :
    sysW.bodyA = sysW.bodyA ∧ sysW.bodyB.a = sysW.bodyB.a ∧
      sysW.bodyB.b = sysW.bodyB.b ∧
      sysW.bodyB.brightness = sysW.bodyB.brightness :=
  C10_simulate_frame sysW ⟨1, 1⟩ 0 1 [(0, exVal sysW.get_total_mag)] sysW
    (simulate_one sysW ⟨1, 1⟩ 0 (exVal sysW.get_total_mag) rfl)

/-! ### C1 and C2 -/

/-- C1 amended (proved): `get_total_mag` equals `get_mag_B` plus the sum, over
the foreground body's derived regions, of the area of the region minus the
geometry of the LAST element of the background body's `bodies` list, weighted by
each region's own brightness.  The last element is the outermost region only
when that list has a single element; for profiles with three or more samples it
is the innermost annulus (see the counterexample). -/
theorem C1_total_flux_last_element (s : Binary) (bsA bsB : List Shape)
    (occ : Shape) (mB : ℝ) (hA : s.bodyA.bodies = .ok bsA)
    (hB : s.bodyB.bodies = .ok bsB) (hocc : bsB.getLast? = some occ)
    (hm : s.get_mag_B = .ok mB) :
    s.get_total_mag = .ok (mB +
      (bsA.map (fun sh =>
        area (sh.geometry \ occ.geometry) * Shape.brightness sh)).sum) :=
  get_total_mag_eq s bsA bsB occ mB hA hB hocc hm

/-- Witness for C1 on a concrete scalar/scalar system. -/
theorem C1_total_flux_last_element_witness :
    sysW.get_total_mag = .ok (exVal sysW.get_mag_B +
      ([Shape.ell ⟨⟨0, 0⟩, 1, 1, 0, 1⟩].map (fun sh =>
        area (sh.geometry \ (Shape.ell ⟨⟨10, 0⟩, 2, 1, 0, 1/2⟩).geometry) *
          Shape.brightness sh)).sum) :=
  C1_total_flux_last_element sysW [Shape.ell ⟨⟨0, 0⟩, 1, 1, 0, 1⟩]
    [Shape.ell ⟨⟨10, 0⟩, 2, 1, 0, 1/2⟩] (Shape.ell ⟨⟨10, 0⟩, 2, 1, 0, 1/2⟩)
    (exVal sysW.get_mag_B) rfl rfl rfl rfl

/-- C1 counterexample: for a background body with the 3-element profile
`[1, 1, 1]` and semi-axes `2`, the derived regions have outer semi-major axes
`[2, 1]`: the LAST element of `bodies` has outer axis `1`, so it is the
innermost annulus, not the body's full outer boundary (axis `2`, carried by the
FIRST element) — refuting that the last element is the outermost region
whenever the background has many annuli. -/
theorem C1_last_element_not_outermost :
    ((EllipticalBody.mk ⟨0, 0⟩ 2 2 0 (.arr [1, 1, 1])).bodies).map
        (fun bs => bs.map Shape.outerA) = .ok [2, 1] ∧ (1 : ℝ) ≠ 2 := by
  constructor
  · rw [bodies_arr]
    have h3 : List.range 3 = [0, 1, 2] := rfl
    simp only [linspace, List.length_cons, List.length_nil, h3, List.map_cons,
      List.map_nil, List.tail_cons, List.zip_cons_cons, List.zip_nil_right,
      List.zip_nil_left, Except.map, Shape.outerA]
    norm_num [max_def]
  · norm_num

theorem zip_map_snd {α β : Type} :
    ∀ (l1 : List α) (l2 : List β), (l1.zip l2).map Prod.snd = l2.take l1.length
  | [], l2 => by simp
  | x :: l1, [] => by simp
  | x :: l1, y :: l2 => by simp [zip_map_snd l1 l2]

/-- C2 amended (proved): for an `n`-element profile (`n ≥ 2`), `bodies` yields
exactly `n−1` concentric annuli whose outer/inner axis pairs are consecutive
samples of the linear interpolation from `(a, b)` down to `(0, 0)` across `n`
samples, the `i`-th annulus carrying the `i`-th profile value — but only the
first `n−1` profile values are consumed: the brightnesses used are
`l.take (n−1)`, and the last profile value is dropped by the truncating `zip`. -/
theorem C2_profile_rings (p : Point) (a b θ : ℝ) (l : List ℝ) (rs : List Shape)
    (hn : 2 ≤ l.length) (h : (EllipticalBody.mk p a b θ (.arr l)).bodies = .ok rs) :
    rs.length = l.length - 1 ∧
    rs.map Shape.brightness = l.take (l.length - 1) ∧
    ∀ i, i < rs.length →
      rs.getD i (Shape.ell ⟨p, 0, 0, 0, 0⟩) = Shape.ring ⟨p,
        (a + (0 - a) * (i : ℝ) / ((l.length : ℝ) - 1),
         a + (0 - a) * ((i : ℝ) + 1) / ((l.length : ℝ) - 1)),
        (b + (0 - b) * (i : ℝ) / ((l.length : ℝ) - 1),
         b + (0 - b) * ((i : ℝ) + 1) / ((l.length : ℝ) - 1)),
        θ, l.getD i 0⟩ := by
  rw [bodies_arr] at h
  injection h with h
  subst h
  refine ⟨?_, ?_, ?_⟩
  · simp only [List.length_map, List.length_zip, List.length_tail, linspace_length]
    omega
  · have hcomp : (Shape.brightness ∘ fun pr : ((ℝ × ℝ) × ℝ × ℝ) × ℝ =>
        Shape.ring ⟨p, pr.1.1, pr.1.2, θ, pr.2⟩) = Prod.snd := rfl
    rw [List.map_map, hcomp, zip_map_snd]
    congr 1
    simp only [List.length_zip, List.length_tail, linspace_length]
    omega
  · intro i hi
    have hlen : i < l.length - 1 := by
      simp only [List.length_map, List.length_zip, List.length_tail,
        linspace_length] at hi
      omega
    rw [List.getD_eq_getElem _ _ hi, List.getD_eq_getElem l 0 (by omega)]
    simp only [List.getElem_map, List.getElem_zip, List.getElem_tail,
      linspace_getElem, Nat.cast_add, Nat.cast_one]

/-- Concrete output of `bodies` for the profile `[1/2, 1/4]`, used by the C2
witness. -/
noncomputable def rsW : List Shape :=
  ((((linspace 1 0 2).zip (linspace 1 0 2).tail).zip
      ((linspace 1 0 2).zip (linspace 1 0 2).tail)).zip [1/2, 1/4]).map
    (fun pr => .ring ⟨⟨0, 0⟩, pr.1.1, pr.1.2, 0, pr.2⟩)

/-- Witness for C2 with the 2-element profile `[1/2, 1/4]`. -/
theorem C2_profile_rings_witness :
    rsW.length = [(1:ℝ)/2, 1/4].length - 1 ∧
    rsW.map Shape.brightness = [(1:ℝ)/2, 1/4].take ([(1:ℝ)/2, 1/4].length - 1) ∧
    ∀ i, i < rsW.length →
      rsW.getD i (Shape.ell ⟨⟨0, 0⟩, 0, 0, 0, 0⟩) = Shape.ring ⟨⟨0, 0⟩,
        (1 + (0 - 1) * (i : ℝ) / (([(1:ℝ)/2, 1/4].length : ℝ) - 1),
         1 + (0 - 1) * ((i : ℝ) + 1) / (([(1:ℝ)/2, 1/4].length : ℝ) - 1)),
        (1 + (0 - 1) * (i : ℝ) / (([(1:ℝ)/2, 1/4].length : ℝ) - 1),
         1 + (0 - 1) * ((i : ℝ) + 1) / (([(1:ℝ)/2, 1/4].length : ℝ) - 1)),
        0, [(1:ℝ)/2, 1/4].getD i 0⟩ :=
  C2_profile_rings ⟨0, 0⟩ 1 1 0 [1/2, 1/4] rsW (by norm_num) rfl

/-- C2 counterexample: with the 2-element profile `[1/2, 9/10]`, the single
derived annulus carries brightness `1/2` only: the last profile value `9/10` is
not consumed as any ring's brightness, refuting "consuming all n profile
values as per-ring brightness". -/
theorem C2_last_value_unused :
    ((EllipticalBody.mk ⟨0, 0⟩ 1 1 0 (.arr [1/2, 9/10])).bodies).map
        (fun bs => bs.map Shape.brightness) = .ok [1/2] ∧
    ¬ ((9 : ℝ)/10 ∈ [(1 : ℝ)/2]) := by
  constructor
  · rw [bodies_arr]
    have h2 : List.range 2 = [0, 1] := rfl
    simp only [linspace, List.length_cons, List.length_nil, h2, List.map_cons,
      List.map_nil, List.tail_cons, List.zip_cons_cons, List.zip_nil_right,
      List.zip_nil_left, Except.map, Shape.brightness]
  · norm_num

/-- C3: evaluation at the failing input.  For the scalar-brightness body at the
origin with semi-axes `1/10`, `bodies` derives the single filled ellipse, but
its region is centred at `(-1/2, -1/2)` — `Ellipse.geometry` subtracts `0.5`
from each coordinate of `pos` — so `(-1/2, -1/2)` lies in the region while the
body's own position `(0, 0)` does not. -/
theorem C3_region_center_offset :
    (EllipticalBody.mk ⟨0, 0⟩ (1/10) (1/10) 0 (.num 1)).bodies =
        .ok [.ell ⟨⟨0, 0⟩, 1/10, 1/10, 0, 1⟩] ∧
    ((-1/2, -1/2) : ℝ × ℝ) ∈ (Ellipse.mk ⟨0, 0⟩ (1/10) (1/10) 0 1).geometry ∧
    ((0, 0) : ℝ × ℝ) ∉ (Ellipse.mk ⟨0, 0⟩ (1/10) (1/10) 0 1).geometry := by
  have hg : (Ellipse.mk ⟨0, 0⟩ (1/10) (1/10) 0 1).geometry =
      affMap ((0:ℝ) - 0.5, (0:ℝ) - 0.5) (1/10) (1/10) (0 * Real.pi / 180) ''
        disc (0, 0) 1 := rotate_scale_disc_eq_image _ _ _ _
  refine ⟨rfl, ?_, ?_⟩
  · rw [hg]
    refine ⟨(0, 0), by simp [disc], ?_⟩
    apply Prod.ext <;> simp [affMap] <;> norm_num
  · rw [hg]
    rintro ⟨q, hq, heq⟩
    rw [Prod.ext_iff] at heq
    obtain ⟨h1, h2⟩ := heq
    simp only [affMap, zero_mul, zero_div, Real.cos_zero, Real.sin_zero, one_mul,
      mul_zero, sub_zero] at h1 h2
    rw [mem_disc] at hq
    norm_num at h1 h2 hq
    have hq1 : q.1 = 5 := by linarith
    have hq2 : q.2 = 5 := by linarith
    rw [hq1, hq2] at hq
    norm_num at hq

/-! ### C4: the failing input and its evaluation -/

/-- Scalar-brightness unit disc at the origin (the C4 foreground). -/
def bodyA4 : EllipticalBody := ⟨⟨0, 0⟩, 1, 1, 0, .num 1⟩

/-- Profile-brightness unit disc at `(-3/2, -3/2)` (the C4 background). -/
noncomputable def bodyB4 : EllipticalBody := ⟨⟨-3/2, -3/2⟩, 1, 1, 0, .arr [1/10, 1/5]⟩

/-- The C4 system: the centre separation is `√(9/2) ≈ 2.12`, strictly greater
than `2`, the sum of the two outer semi-axes, so the bodies are disjoint in the
claim's sense. -/
noncomputable def sysC4 : Binary := ⟨bodyA4, bodyB4⟩

/-- The single derived region of the C4 foreground. -/
def eA4 : Ellipse := ⟨⟨0, 0⟩, 1, 1, 0, 1⟩

/-- The single derived region of the C4 background. -/
noncomputable def rB4 : EllipticRing := ⟨⟨-3/2, -3/2⟩, (1, 0), (1, 0), 0, 1/10⟩

theorem bodiesB4 : sysC4.bodyB.bodies = .ok [.ring rB4] := by
  show (EllipticalBody.mk ⟨-3/2, -3/2⟩ 1 1 0 (.arr [1/10, 1/5])).bodies = _
  rw [bodies_arr]
  have h2 : List.range 2 = [0, 1] := rfl
  simp only [linspace, List.length_cons, List.length_nil, h2, List.map_cons,
    List.map_nil, List.tail_cons, List.zip_cons_cons, List.zip_nil_right,
    List.zip_nil_left]
  norm_num [rB4]

theorem geomA4 : (Shape.ell eA4).geometry = disc ((0:ℝ) - 0.5, (0:ℝ) - 0.5) 1 :=
  rotate_scale_disc_one ((0:ℝ) - 0.5, (0:ℝ) - 0.5)

theorem geomB4 : (Shape.ring rB4).geometry =
    disc ((-3/2 : ℝ), (-3/2 : ℝ)) 1 \ {((-3/2 : ℝ), (-3/2 : ℝ))} := by
  have h : (Shape.ring rB4).geometry =
      rotateAbout ((-3/2 : ℝ), (-3/2 : ℝ)) 0
          (scaleAbout ((-3/2 : ℝ), (-3/2 : ℝ)) (max 1 0) (max 1 0)
            (disc ((-3/2 : ℝ), (-3/2 : ℝ)) 1)) \
        rotateAbout ((-3/2 : ℝ), (-3/2 : ℝ)) 0
          (scaleAbout ((-3/2 : ℝ), (-3/2 : ℝ)) (min 1 0) (min 1 0)
            (disc ((-3/2 : ℝ), (-3/2 : ℝ)) 1)) := rfl
  rw [h, max_eq_left (by norm_num : (0:ℝ) ≤ 1), min_eq_right (by norm_num : (0:ℝ) ≤ 1),
    rotate_scale_disc_one, rotate_scale_disc_zero]

theorem area_disc_one (c : ℝ × ℝ) : area (disc c 1) = Real.pi := by
  rw [area, volume_disc_one, ENNReal.toReal_ofReal Real.pi_pos.le]

theorem area_ringB4 :
    area (disc ((-3/2 : ℝ), (-3/2 : ℝ)) 1 \ {((-3/2 : ℝ), (-3/2 : ℝ))}) = Real.pi := by
  rw [area, measure_diff_null (volume_singleton_pair _), volume_disc_one,
    ENNReal.toReal_ofReal Real.pi_pos.le]

theorem magA4 : sysC4.get_mag_A = .ok Real.pi := by
  rw [get_mag_A_eq sysC4 [.ell eA4] rfl]
  simp only [List.map_cons, List.map_nil, List.sum_cons, List.sum_nil, geomA4,
    area_disc_one]
  norm_num [Shape.brightness, eA4]

theorem magB4 : sysC4.get_mag_B = .ok (Real.pi * (1/10)) := by
  rw [get_mag_B_eq sysC4 [.ring rB4] bodiesB4]
  simp only [List.map_cons, List.map_nil, List.sum_cons, List.sum_nil, geomB4,
    area_ringB4]
  norm_num [Shape.brightness, rB4]

theorem cB4_not_mem_discA :
    ((-3/2 : ℝ), (-3/2 : ℝ)) ∉ disc ((0:ℝ) - 0.5, (0:ℝ) - 0.5) 1 := by
  simp only [mem_disc]
  norm_num

theorem diff_diff_singleton {X : Type} (A B : Set X) (c : X) (hc : c ∉ A) :
    A \ (B \ {c}) = A \ B := by
  ext p
  simp only [Set.mem_diff, Set.mem_singleton_iff]
  constructor
  · rintro ⟨hpA, hp⟩
    refine ⟨hpA, fun hpB => hp ⟨hpB, ?_⟩⟩
    rintro rfl
    exact hc hpA
  · rintro ⟨hpA, hpB⟩
    exact ⟨hpA, fun hmem => hpB hmem.1⟩

theorem square_subset_inter :
    Set.Ioo (-(6:ℝ)/5) (-(4:ℝ)/5) ×ˢ Set.Ioo (-(6:ℝ)/5) (-(4:ℝ)/5) ⊆
      disc ((0:ℝ) - 0.5, (0:ℝ) - 0.5) 1 ∩ disc ((-3/2 : ℝ), (-3/2 : ℝ)) 1 := by
  rintro ⟨p1, p2⟩ ⟨⟨h1a, h1b⟩, h2a, h2b⟩
  constructor
  · simp only [mem_disc]
    nlinarith [h1a, h1b, h2a, h2b]
  · simp only [mem_disc]
    nlinarith [h1a, h1b, h2a, h2b]

theorem volume_square :
    volume (Set.Ioo (-(6:ℝ)/5) (-(4:ℝ)/5) ×ˢ Set.Ioo (-(6:ℝ)/5) (-(4:ℝ)/5)) =
      ENNReal.ofReal (2/5) * ENNReal.ofReal (2/5) := by
  rw [Measure.volume_eq_prod, Measure.prod_prod, Real.volume_Ioo]
  norm_num

theorem area_A4_diff_lt :
    area (disc ((0:ℝ) - 0.5, (0:ℝ) - 0.5) 1 \
        (disc ((-3/2 : ℝ), (-3/2 : ℝ)) 1 \ {((-3/2 : ℝ), (-3/2 : ℝ))})) < Real.pi := by
  rw [diff_diff_singleton _ _ _ cB4_not_mem_discA]
  have hAB : disc ((0:ℝ) - 0.5, (0:ℝ) - 0.5) 1 \ disc ((-3/2 : ℝ), (-3/2 : ℝ)) 1 =
      disc ((0:ℝ) - 0.5, (0:ℝ) - 0.5) 1 \
        (disc ((0:ℝ) - 0.5, (0:ℝ) - 0.5) 1 ∩ disc ((-3/2 : ℝ), (-3/2 : ℝ)) 1) :=
    (Set.diff_self_inter).symm
  have hmeas : NullMeasurableSet
      (disc ((0:ℝ) - 0.5, (0:ℝ) - 0.5) 1 ∩ disc ((-3/2 : ℝ), (-3/2 : ℝ)) 1) volume :=
    ((measurableSet_disc _ _).inter (measurableSet_disc _ _)).nullMeasurableSet
  have hle : volume (disc ((0:ℝ) - 0.5, (0:ℝ) - 0.5) 1 ∩
      disc ((-3/2 : ℝ), (-3/2 : ℝ)) 1) ≤ ENNReal.ofReal Real.pi := by
    rw [← volume_disc_one ((0:ℝ) - 0.5, (0:ℝ) - 0.5)]
    exact measure_mono Set.inter_subset_left
  have hfin : volume (disc ((0:ℝ) - 0.5, (0:ℝ) - 0.5) 1 ∩
      disc ((-3/2 : ℝ), (-3/2 : ℝ)) 1) ≠ ⊤ :=
    ne_top_of_le_ne_top ENNReal.ofReal_ne_top hle
  have hsub : volume (disc ((0:ℝ) - 0.5, (0:ℝ) - 0.5) 1 \
      disc ((-3/2 : ℝ), (-3/2 : ℝ)) 1) =
      volume (disc ((0:ℝ) - 0.5, (0:ℝ) - 0.5) 1) -
        volume (disc ((0:ℝ) - 0.5, (0:ℝ) - 0.5) 1 ∩
          disc ((-3/2 : ℝ), (-3/2 : ℝ)) 1) := by
    rw [hAB, measure_diff Set.inter_subset_left hmeas hfin]
  have hlow : ENNReal.ofReal (2/5) * ENNReal.ofReal (2/5) ≤
      volume (disc ((0:ℝ) - 0.5, (0:ℝ) - 0.5) 1 ∩
        disc ((-3/2 : ℝ), (-3/2 : ℝ)) 1) := by
    rw [← volume_square]
    exact measure_mono square_subset_inter
  rw [area, hsub, volume_disc_one,
    ENNReal.toReal_sub_of_le hle ENNReal.ofReal_ne_top,
    ENNReal.toReal_ofReal Real.pi_pos.le]
  have hlow2 : (4:ℝ)/25 ≤ (volume (disc ((0:ℝ) - 0.5, (0:ℝ) - 0.5) 1 ∩
      disc ((-3/2 : ℝ), (-3/2 : ℝ)) 1)).toReal := by
    have h1 := ENNReal.toReal_mono hfin hlow
    rw [ENNReal.toReal_mul, ENNReal.toReal_ofReal (by norm_num : (0:ℝ) ≤ 2/5)] at h1
    linarith [h1]
  linarith [hlow2]

theorem totalC4 : sysC4.get_total_mag = .ok (Real.pi * (1/10) +
    area (disc ((0:ℝ) - 0.5, (0:ℝ) - 0.5) 1 \
      (disc ((-3/2 : ℝ), (-3/2 : ℝ)) 1 \ {((-3/2 : ℝ), (-3/2 : ℝ))}))) := by
  rw [get_total_mag_eq sysC4 [.ell eA4] [.ring rB4] (.ring rB4) (Real.pi * (1/10))
    rfl bodiesB4 rfl magB4]
  simp only [List.map_cons, List.map_nil, List.sum_cons, List.sum_nil, geomA4, geomB4]
  norm_num [Shape.brightness, eA4]

/-- C4: evaluation at the failing input.  The two bodies at `(0, 0)` and
`(-3/2, -3/2)` with unit semi-axes have centre separation `√(9/2) > 2`, the sum
of the outer semi-axes, yet the total flux is strictly below the sum of the
individual fluxes: `Ellipse.geometry` offsets the scalar body's region to centre
`(-1/2, -1/2)`, which overlaps the background's region. -/
theorem C4_disjoint_sum_violated :
    exVal sysC4.get_total_mag < exVal sysC4.get_mag_A + exVal sysC4.get_mag_B := by
  rw [totalC4, magA4, magB4]
  simp only [exVal]
  linarith [area_A4_diff_lt]

end LCS
